import Mathlib

/-!
Verification of the picsort media-import program (`src/picsort.py`).

The program is embedded shallowly:

* A regular file is its byte content (`List Nat`), its modification time and a
  readability flag (`open` on an unreadable file raises, uncaught, in the
  source).
* The filesystem is a pair of association lists: path → file, plus a list of
  existing directories.  `os.path.join` is modelled with POSIX semantics
  (separator `/`); the Windows-only backslashes produced by the source's
  `'{0}\x7b..\x7d'.format` string stay literal characters inside one path
  component, exactly as they would on a POSIX system.
* The process-wide state (`hashes` dict, `copycount` counter) is threaded
  explicitly.  Python `dict` assignment is insert-or-overwrite (`alinsert`),
  `dict.get` is `alookup`; the truthiness test `if duplicate:` is modelled
  faithfully (an empty-string path is falsy).
* The SHA-1 digest, the chance of `os.makedirs` / `os.rename` failing, and
  the external exif metadata collaborator (`exifread`, explicitly external in
  the program's design) are parameters of an `Env` record.  The digest is an
  arbitrary function of the full byte content: the incremental chunked hash of
  the source computes a function of the concatenated chunks, i.e. of the
  content.  Digits in the source's regexes are modelled as ASCII `0-9`.
* Uncaught Python exceptions (`IOError` from `open` inside `hashfile`,
  `IndexError` from `filename.split('.')[1]`) abort the run; they are modelled
  by `Except`.  The `while True` collision loop of `copyfile` is given fuel
  exceeding the number of existing filesystem entries; exhaustion is modelled
  as a distinguished error and never occurs on the concrete runs below.
-/

namespace Picsort

/-- Byte content of a file, one natural number per byte. -/
abbrev Bytes := List Nat

/-- A regular file: content bytes, `os.stat` modification time, and whether
the process is allowed to open it for reading. -/
structure File where
  bytes : Bytes
  mtime : Nat
  readable : Bool
deriving DecidableEq

/-- Association-list lookup; models Python `dict.get(k, None)` and path
lookup in the filesystem. -/
def alookup {α β : Type} [DecidableEq α] : List (α × β) → α → Option β
  | [], _ => none
  | (k, v) :: t, a => if a = k then some v else alookup t a

/-- Association-list insert-or-overwrite; models Python `d[k] = v`. -/
def alinsert {α β : Type} [DecidableEq α] (k : α) (v : β) : List (α × β) → List (α × β)
  | [] => [(k, v)]
  | (k', v') :: t => if k = k' then (k, v) :: t else (k', v') :: alinsert k v t

/-- Remove every binding of a key; models deletion of the source path when
`os.rename` moves a file away. -/
def alremove {α β : Type} [DecidableEq α] (k : α) : List (α × β) → List (α × β)
  | [] => []
  | (k', v') :: t => if k = k' then alremove k t else (k', v') :: alremove k t

/-- The filesystem: regular files by absolute path, and the set of existing
directories. -/
structure FS where
  files : List (String × File)
  dirs : List String
deriving DecidableEq

/-- `os.path.exists`: true for a regular file or a directory at the path. -/
def FS.pathExists (fs : FS) (p : String) : Bool :=
  (alookup fs.files p).isSome || decide (p ∈ fs.dirs)

/-- The process-wide mutable state of one run: the filesystem, the global
`hashes` identity registry (identity key ↦ first path seen), and the global
`copycount` counter. -/
structure St where
  fs : FS
  hashes : List ((Bytes × Nat) × String)
  copycount : Nat
deriving DecidableEq

/-- Parameters the program does not control: the content digest, which
`os.makedirs` / `os.rename` calls fail with `OSError`, and the external
metadata collaborator mapping an image's byte stream to the value of its
`EXIF DateTimeOriginal` tag (if any). -/
structure Env where
  sha1 : Bytes → Bytes
  mkdirFails : String → Bool
  renameFails : String → String → Bool
  exifTag : Bytes → Option String

/-- An uncaught Python exception terminating the run, or exhaustion of the
fuel bounding the model of the source's unbounded `while True` loop. -/
inductive PyErr where
  | readErr (path : String)
  | indexErr
  | loopLimit
deriving DecidableEq

/-- Terminal state of one directory entry, read off the return paths of the
source: skipped as non-file, skipped as duplicate, skipped for an
unresolvable date, skipped because the destination directory could not be
created, skipped because an identical file already occupies the destination,
rename failed, or successfully moved (with or without a rename suffix). -/
inductive Outcome where
  | notFile
  | dupSkip
  | dateSkip
  | dirFail
  | skippedIdentical
  | moveError
  | moved
deriving DecidableEq

/-- `os.path.join` with POSIX semantics: `b` if `b` is absolute, else the
pieces glued with `/` unless `a` is empty or already ends in the separator. -/
def osJoin (a b : String) : String :=
  if b.toList.head? = some '/' then b
  else if a = "" then b
  else if a.toList.getLast? = some '/' then a ++ b
  else a ++ "/" ++ b

/-- Python `str.endswith`, via list suffix testing. -/
def endsWithL (s suffix : String) : Bool :=
  List.isSuffixOf suffix.toList s.toList

/-- Python `str.split('.')` on the character list: splits at every dot,
keeping empty pieces, and yields `[whole]` when no dot occurs. -/
def splitDot : List Char → List (List Char)
  | [] => [[]]
  | '.' :: rest => [] :: splitDot rest
  | c :: rest =>
    match splitDot rest with
    | [] => [[c]]
    | g :: gs => (c :: g) :: gs

/-- The renamed candidate `'{0}-{1}.{2}'.format(parts[0], i, parts[1])` built
by `copyfile` from `parts = filename.split('.')`; `none` models the uncaught
`IndexError` raised by `parts[1]` when the filename contains no dot. -/
def mkRenamed (filename : String) (i : Nat) : Option String :=
  match splitDot filename.toList with
  | p0 :: p1 :: _ => some (String.mk p0 ++ "-" ++ Nat.repr i ++ "." ++ String.mk p1)
  | _ => none

/-- The date sub-path `'{0}\x7b1\x7d{2}'.format(year, month, day)` of
`copyimage`/`copyvideo` — with the source's hardcoded backslash separator,
kept literally: `year ++ "\" ++ month ++ "\" ++ day`. -/
def dateSubpath (y m d : String) : String :=
  y ++ "\\" ++ m ++ "\\" ++ d

/-- The video-filename regex `VID_(\d{4})(\d{2})(\d{2})_\d+\.mp4` applied
with `re.match`: anchored at the start only, so any trailing characters are
accepted.  Returns the year, month, day groups. -/
def parseVideo (filename : String) : Option (String × String × String) :=
  match filename.toList with
  | 'V' :: 'I' :: 'D' :: '_' :: y1 :: y2 :: y3 :: y4 :: m1 :: m2 :: d1 :: d2 :: '_' :: rest =>
    if ([y1, y2, y3, y4, m1, m2, d1, d2].all Char.isDigit) then
      if (!(rest.takeWhile Char.isDigit).isEmpty)
          && List.isPrefixOf ['.', 'm', 'p', '4'] (rest.dropWhile Char.isDigit) then
        some (String.mk [y1, y2, y3, y4], String.mk [m1, m2], String.mk [d1, d2])
      else none
    else none
  | _ => none

/-- Python's `\s` character class, restricted to the whitespace code points
relevant here (the full class also contains further Unicode spaces). -/
def pyWS (c : Char) : Bool :=
  decide (c ∈ [' ', '\t', '\n', '\r', '\x0b', '\x0c', '\x1c', '\x1d', '\x1e', '\x1f',
    '\u0085', ' ', ' ', ' ', ' ', ' ', ' ', ' ',
    ' ', ' ', ' ', ' ', ' ', ' ', ' ', ' ',
    ' ', ' ', '　'])

/-- The `dateregex` of line 12:
`^(\d{4}):(\d{2}):(\d{2})\s(\d{2}):(\d{2}):(\d{2})$` applied with
`re.match`.  `$` also matches just before one trailing newline.  Returns the
year, month, day groups (the time groups are captured but never used). -/
def parseDateTag (s : String) : Option (String × String × String) :=
  match s.toList with
  | y1 :: y2 :: y3 :: y4 :: ':' :: m1 :: m2 :: ':' :: d1 :: d2 :: w ::
      h1 :: h2 :: ':' :: n1 :: n2 :: ':' :: s1 :: s2 :: rest =>
    if ([y1, y2, y3, y4, m1, m2, d1, d2, h1, h2, n1, n2, s1, s2].all Char.isDigit)
        && pyWS w && (decide (rest = [] ∨ rest = ['\n'])) then
      some (String.mk [y1, y2, y3, y4], String.mk [m1, m2], String.mk [d1, d2])
    else none
  | _ => none

/-- `os.stat` signature used by `filecmp.cmp` in shallow mode: size and
modification time (the file-type component is constant for regular files). -/
def statSig (f : File) : Nat × Nat :=
  (f.bytes.length, f.mtime)

/-- `comparefiles` = `filecmp.cmp(file1, file2)` with its default
`shallow=True`: equal stat signatures short-circuit to `True`; otherwise the
full contents are compared, which opens both files (raising on an unreadable
one). -/
def comparefiles (fs : FS) (file1 file2 : String) : Except PyErr Bool :=
  match alookup fs.files file1, alookup fs.files file2 with
  | some f1, some f2 =>
    if statSig f1 = statSig f2 then .ok true
    else if f1.readable = false then .error (.readErr file1)
    else if f2.readable = false then .error (.readErr file2)
    else .ok (decide (f1.bytes = f2.bytes))
  | none, _ => .error (.readErr file1)
  | some _, none => .error (.readErr file2)

/-- `validatedirectory`: if the directory does not exist, try to create it
(`os.makedirs`), returning `False` when that raises `OSError` (caught). -/
def validatedirectory (env : Env) (fs : FS) (directory : String) : Bool × FS :=
  if fs.pathExists directory then (true, fs)
  else if env.mkdirFails directory then (false, fs)
  else (true, { fs with dirs := directory :: fs.dirs })

/-- `hashfile`: stream the file into the digest, pair it with
`os.path.getsize`, and consult the global `hashes` registry.  A present key
with a truthy (non-empty) stored path is reported as a duplicate and nothing
is inserted; otherwise the key is bound to this file's path and the file is
unique.  The `open` is not guarded: an unreadable file raises out of the
whole run. -/
def hashfile (env : Env) (st : St) (filename : String) : Except PyErr (Bool × St) :=
  match alookup st.fs.files filename with
  | none => .error (.readErr filename)
  | some f =>
    if f.readable = false then .error (.readErr filename)
    else
      match alookup st.hashes (env.sha1 f.bytes, f.bytes.length) with
      | some dup =>
        if dup = "" then
          .ok (true, { st with hashes := alinsert (env.sha1 f.bytes, f.bytes.length) filename st.hashes })
        else .ok (false, st)
      | none =>
        .ok (true, { st with hashes := alinsert (env.sha1 f.bytes, f.bytes.length) filename st.hashes })

/-- Fuel bound for the collision loop: more than the number of entries that
can occupy candidate paths. -/
def loopFuel (fs : FS) : Nat :=
  fs.files.length + fs.dirs.length + 1

/-- The `while True` loop of `copyfile`: starting from the candidate path
`cand` and suffix counter `i`, return `none` when an occupying file with
identical content is found (skip), or `some path` for the first unoccupied
candidate path.  Each occupied, non-identical candidate rebuilds the name
from the original `filename` with the next suffix (which raises `IndexError`
for dot-less names). -/
def copyLoop (fs : FS) (absolutepath library filename : String) :
    String → Nat → Nat → Except PyErr (Option String)
  | _, _, 0 => .error .loopLimit
  | cand, i, fuel + 1 =>
    if fs.pathExists cand then
      match comparefiles fs absolutepath cand with
      | .error e => .error e
      | .ok true => .ok none
      | .ok false =>
        match mkRenamed filename i with
        | none => .error .indexErr
        | some newname => copyLoop fs absolutepath library filename (osJoin library newname) (i + 1) fuel
    else .ok (some cand)

/-- `copyfile`: ensure the destination directory, search for a final
candidate path, then `os.rename` (whose `OSError` is caught and logged);
a successful rename increments the global `copycount`. -/
def copyfile (env : Env) (st : St) (absolutepath filename library librarypath : String) :
    Except PyErr (Outcome × St) :=
  match validatedirectory env st.fs library with
  | (false, fs1) => .ok (.dirFail, { st with fs := fs1 })
  | (true, fs1) =>
    match copyLoop fs1 absolutepath library filename (osJoin library filename) 1 (loopFuel fs1) with
    | .error e => .error e
    | .ok none => .ok (.skippedIdentical, { st with fs := fs1 })
    | .ok (some finalpath) =>
      match alookup fs1.files absolutepath with
      | none => .ok (.moveError, { st with fs := fs1 })
      | some f =>
        if env.renameFails absolutepath finalpath then .ok (.moveError, { st with fs := fs1 })
        else
          .ok (.moved,
            { st with
              fs := { fs1 with files := (finalpath, f) :: alremove absolutepath fs1.files },
              copycount := st.copycount + 1 })

/-- `copyimage`: destination = library root joined with the backslash date
sub-path built from the matched metadata groups. -/
def copyimage (env : Env) (st : St) (absolutepath filename library y m d : String) :
    Except PyErr (Outcome × St) :=
  copyfile env st absolutepath filename (osJoin library (dateSubpath y m d)) (dateSubpath y m d)

/-- `copyvideo`: parse the date out of the filename; on failure log and skip
(no move), otherwise proceed exactly like `copyimage`. -/
def copyvideo (env : Env) (st : St) (absolutepath filename library : String) :
    Except PyErr (Outcome × St) :=
  match parseVideo filename with
  | none => .ok (.dateSkip, st)
  | some (y, m, d) =>
    copyfile env st absolutepath filename (osJoin library (dateSubpath y m d)) (dateSubpath y m d)

/-- The per-entry body of `importfolder`'s loop: skip non-files, run the
duplicate check, then classify by the `.mp4` suffix: videos resolve the date
from the filename, everything else is opened again and resolved from the
external `EXIF DateTimeOriginal` tag. -/
def processItem (env : Env) (directory library : String) (st : St) (item : String) :
    Except PyErr (Outcome × St) :=
  match alookup st.fs.files (osJoin directory item) with
  | none => .ok (.notFile, st)
  | some _ =>
    match hashfile env st (osJoin directory item) with
    | .error e => .error e
    | .ok (false, st1) => .ok (.dupSkip, st1)
    | .ok (true, st1) =>
      if endsWithL item ".mp4" then
        copyvideo env st1 (osJoin directory item) item library
      else
        match alookup st1.fs.files (osJoin directory item) with
        | none => .error (.readErr (osJoin directory item))
        | some f =>
          if f.readable = false then .error (.readErr (osJoin directory item))
          else
            match env.exifTag f.bytes with
            | none => .ok (.dateSkip, st1)
            | some tagval =>
              match parseDateTag tagval with
              | none => .ok (.dateSkip, st1)
              | some (y, m, d) =>
                copyimage env st1 (osJoin directory item) item library y m d

/-- `importfolder` over the entries `os.listdir` produced for `directory`
(traversal itself is an external collaborator).  The outcome of every entry
is collected alongside the final state; an uncaught exception aborts. -/
def importfolder (env : Env) (directory library : String) :
    List String → St → Except PyErr (List Outcome × St)
  | [], st => .ok ([], st)
  | item :: rest, st =>
    match processItem env directory library st item with
    | .error e => .error e
    | .ok (o, st1) =>
      match importfolder env directory library rest st1 with
      | .error e => .error e
      | .ok (os', st2) => .ok (o :: os', st2)

/-- The folder loop of `main`: each source folder with its listing, one
shared registry and counter.  At the end `main` reports
`(st.hashes.length, st.copycount)` as "unique images found" / "copied". -/
def runMain (env : Env) (library : String) :
    List (String × List String) → St → Except PyErr (List Outcome × St)
  | [], st => .ok ([], st)
  | (d, items) :: rest, st =>
    match importfolder env d library items st with
    | .error e => .error e
    | .ok (os1, st1) =>
      match runMain env library rest st1 with
      | .error e => .error e
      | .ok (os2, st2) => .ok (os1 ++ os2, st2)

/-- Outcomes whose entry inserted a fresh identity key into the registry
(everything past the duplicate check). -/
def insertedOutcome : Outcome → Bool
  | .notFile => false
  | .dupSkip => false
  | _ => true

/-- Modelled from the spec: the destination directory that §4.3 requires,
"joining the library root with the three date components as nested
subdirectories, using a portable path-joining primitive". -/
def specPortableDest (library y m d : String) : String :=
  osJoin (osJoin (osJoin library y) m) d

/-- Modelled from the spec: the full video filename shape
`VID_<8-digit-date>_<numeric-suffix>.<ext>` of §4.2 — the whole name, with a
recognizable (non-empty, dot-free) extension. -/
def specVideoShape (s : String) : Bool :=
  match s.toList with
  | 'V' :: 'I' :: 'D' :: '_' :: c1 :: c2 :: c3 :: c4 :: c5 :: c6 :: c7 :: c8 :: '_' :: rest =>
    ([c1, c2, c3, c4, c5, c6, c7, c8].all Char.isDigit)
      && (!(rest.takeWhile Char.isDigit).isEmpty)
      && (match rest.dropWhile Char.isDigit with
          | '.' :: ext => !ext.isEmpty && !ext.contains '.'
          | _ => false)
  | _ => false

/-- Modelled from the spec: a date-metadata string matching "the exact
pattern `YYYY:MM:DD HH:MM:SS`" of §4.2 — digits, colons and one literal
space, nothing more. -/
def exactDateShape (s : String) : Bool :=
  match s.toList with
  | [y1, y2, y3, y4, ':', m1, m2, ':', d1, d2, ' ', h1, h2, ':', n1, n2, ':', s1, s2] =>
    [y1, y2, y3, y4, m1, m2, d1, d2, h1, h2, n1, n2, s1, s2].all Char.isDigit
  | _ => false

/-- The set of filenames the source's video regex actually accepts: a prefix
of the form `VID_` + 8 digits + `_` + digits + `.mp4`, anything after. -/
def vidPrefixShape (s : String) : Prop :=
  ∃ (ds n r : List Char),
    s.toList = ['V', 'I', 'D', '_'] ++ ds ++ ['_'] ++ n ++ ['.', 'm', 'p', '4'] ++ r ∧
    ds.length = 8 ∧ ds.all Char.isDigit = true ∧ n ≠ [] ∧ n.all Char.isDigit = true

/-- The set of strings the source's `dateregex` actually accepts:
`YYYY:MM:DD<ws>HH:MM:SS` where `<ws>` is any single whitespace character,
optionally followed by one trailing newline. -/
def wsDateShape (s : String) : Prop :=
  ∃ (y1 y2 y3 y4 m1 m2 d1 d2 h1 h2 n1 n2 s1 s2 w : Char) (tail : List Char),
    s.toList = [y1, y2, y3, y4, ':', m1, m2, ':', d1, d2, w, h1, h2, ':', n1, n2, ':', s1, s2]
        ++ tail ∧
    [y1, y2, y3, y4, m1, m2, d1, d2, h1, h2, n1, n2, s1, s2].all Char.isDigit = true ∧
    pyWS w = true ∧ (tail = [] ∨ tail = ['\n'])

/-- The date the pipeline will resolve for a directory entry, as a function
of its name and content: the filename pattern for `.mp4` names, the external
metadata tag otherwise. -/
def itemDate (env : Env) (item : String) (f : File) : Option (String × String × String) :=
  if endsWithL item ".mp4" then parseVideo item
  else
    match env.exifTag f.bytes with
    | none => none
    | some tagval => parseDateTag tagval

/-- An entry whose placement has already happened: either no regular file is
at its path, or the file is readable and — whenever a date resolves for it —
the dated destination directory exists and holds a readable, byte-identical
file under the entry's name. -/
def alreadyPlaced (env : Env) (fs : FS) (directory library item : String) : Bool :=
  match alookup fs.files (osJoin directory item) with
  | none => true
  | some f =>
    f.readable &&
      (match itemDate env item f with
      | none => true
      | some (y, m, d) =>
        fs.pathExists (osJoin library (dateSubpath y m d)) &&
          (match alookup fs.files (osJoin (osJoin library (dateSubpath y m d)) item) with
          | none => false
          | some g => decide (g.bytes = f.bytes) && g.readable))

/-- A run-obstructing result (used to state that a run did not abort). -/
def runOk {α : Type} : Except PyErr α → Bool
  | .ok _ => true
  | .error _ => false

/-- The benign environment used by concrete runs: the digest is the content
itself, no directory creation or rename ever fails, no image carries a date
tag. -/
def envW : Env :=
  { sha1 := fun b => b
    mkdirFails := fun _ => false
    renameFails := fun _ _ => false
    exifTag := fun _ => none }

/-- Environment whose metadata collaborator reports a fixed
`EXIF DateTimeOriginal` value for every image. -/
def envTag (t : String) : Env :=
  { envW with exifTag := fun _ => some t }

/-- Concrete state: a pair of byte-identical files, the first already
registered in the identity registry. -/
def stDupPair : St :=
  ⟨⟨[("d/a.jpg", ⟨[5], 0, true⟩), ("d/b.jpg", ⟨[5], 1, true⟩)], ["d", "lib"]⟩,
    [(([5], 1), "d/a.jpg")], 0⟩

/-- Concrete state: a single well-named video awaiting import. -/
def stVid : St :=
  ⟨⟨[("src/VID_20230401_001.mp4", ⟨[1, 2, 3], 5, true⟩)], ["lib", "src"]⟩, [], 0⟩

/-- Concrete state: a dot-less filename colliding with different content at
its destination. -/
def stReadme : St :=
  ⟨⟨[("src/README", ⟨[1], 10, true⟩), ("lib/README", ⟨[2], 20, true⟩)], ["lib", "src"]⟩, [], 0⟩

/-- Concrete state: a video already placed in the library, still present in
the source directory. -/
def stPlaced : St :=
  ⟨⟨[("d/VID_20230401_001.mp4", ⟨[1], 4, true⟩),
      ("lib/2023\\04\\01/VID_20230401_001.mp4", ⟨[1], 9, true⟩)],
    ["lib", "d", "lib/2023\\04\\01"]⟩, [], 0⟩

/-- Concrete state: two byte-identical, differently named videos. -/
def stTwoVids : St :=
  ⟨⟨[("d/VID_20230401_001.mp4", ⟨[5], 0, true⟩), ("d/VID_20230401_002.mp4", ⟨[5], 3, true⟩)],
    ["lib", "d"]⟩, [], 0⟩

/-- Concrete state: an unreadable image followed by a processable video. -/
def stUnreadable : St :=
  ⟨⟨[("d/bad.jpg", ⟨[9], 0, false⟩), ("d/good.mp4", ⟨[1, 2], 0, true⟩)], ["lib", "d"]⟩, [], 0⟩

/-- Concrete state: an `.mp4` file whose name does not carry a date. -/
def stHoliday : St :=
  ⟨⟨[("d/holiday.mp4", ⟨[7, 7], 0, true⟩)], ["lib", "d"]⟩, [], 0⟩

/-- Concrete state: two byte-identical images, neither carrying a date tag
under `envW`. -/
def stNoDate : St :=
  ⟨⟨[("d/first.jpg", ⟨[3, 3], 0, true⟩), ("d/second.jpg", ⟨[3, 3], 8, true⟩)], ["lib", "d"]⟩,
    [], 0⟩

/-- Final state of the one-video import run from `stVid` (the file moved
under the backslash-named destination). -/
def stVidFin : St :=
  ⟨⟨[("lib/2023\\04\\01/VID_20230401_001.mp4", ⟨[1, 2, 3], 5, true⟩)],
    ["lib/2023\\04\\01", "lib", "src"]⟩, [(([1, 2, 3], 3), "src/VID_20230401_001.mp4")], 1⟩

/-- Final state of the two-identical-videos run from `stTwoVids`. -/
def stTwoVidsFin : St :=
  ⟨⟨[("lib/2023\\04\\01/VID_20230401_001.mp4", ⟨[5], 0, true⟩),
      ("d/VID_20230401_002.mp4", ⟨[5], 3, true⟩)],
    ["lib/2023\\04\\01", "lib", "d"]⟩, [(([5], 1), "d/VID_20230401_001.mp4")], 1⟩

/-- State after processing only `good.mp4` from `stUnreadable`. -/
def stUnreadFin : St :=
  ⟨⟨[("d/bad.jpg", ⟨[9], 0, false⟩), ("d/good.mp4", ⟨[1, 2], 0, true⟩)], ["lib", "d"]⟩,
    [(([1, 2], 2), "d/good.mp4")], 0⟩

/-! ### Association-list lemmas -/

theorem alookup_alinsert_self {α β : Type} [DecidableEq α] (l : List (α × β)) (k : α) (v : β) :
    alookup (alinsert k v l) k = some v := by
  induction l with
  | nil => simp [alinsert, alookup]
  | cons hd tl ih =>
    obtain ⟨k', v'⟩ := hd
    by_cases h : k = k'
    · simp [alinsert, alookup, h]
    · simp [alinsert, alookup, h, ih]

theorem alookup_alinsert_ne {α β : Type} [DecidableEq α] (l : List (α × β)) (k k' : α) (v : β)
    (h : k' ≠ k) : alookup (alinsert k v l) k' = alookup l k' := by
  induction l with
  | nil => simp [alinsert, alookup, h]
  | cons hd tl ih =>
    obtain ⟨a, b⟩ := hd
    by_cases hk : k = a
    · subst hk
      simp [alinsert, alookup, h]
    · simp only [alinsert, if_neg hk, alookup]
      by_cases hk' : k' = a
      · simp [hk']
      · simp [hk', ih]

theorem length_alinsert_of_none {α β : Type} [DecidableEq α] (l : List (α × β)) (k : α) (v : β)
    (h : alookup l k = none) : (alinsert k v l).length = l.length + 1 := by
  induction l with
  | nil => simp [alinsert]
  | cons hd tl ih =>
    obtain ⟨a, b⟩ := hd
    simp only [alookup] at h
    by_cases hk : k = a
    · simp [hk] at h
    · simp only [alinsert, if_neg hk, List.length_cons]
      rw [ih]
      simp [hk] at h
      exact h

theorem alookup_alinsert_cases {α β : Type} [DecidableEq α] (l : List (α × β)) (k k' : α)
    (v w : β) (h : alookup (alinsert k v l) k' = some w) : w = v ∨ alookup l k' = some w := by
  by_cases hk : k' = k
  · subst hk
    rw [alookup_alinsert_self] at h
    exact Or.inl (Option.some.inj h).symm
  · rw [alookup_alinsert_ne l k k' v hk] at h
    exact Or.inr h

theorem alookup_alremove_ne {α β : Type} [DecidableEq α] (l : List (α × β)) (k p : α)
    (h : p ≠ k) : alookup (alremove k l) p = alookup l p := by
  induction l with
  | nil => simp [alremove]
  | cons hd tl ih =>
    obtain ⟨a, b⟩ := hd
    by_cases hk : k = a
    · subst hk
      simp [alremove, alookup, h, ih]
    · simp only [alremove, if_neg hk, alookup]
      by_cases hp : p = a
      · simp [hp]
      · simp [hp, ih]

/-! ### Path lemmas -/

theorem osJoin_ne_empty (a b : String) (h : b ≠ "") : osJoin a b ≠ "" := by
  have hlen : 0 < b.length := by
    cases b with
    | mk data =>
      cases data with
      | nil => exact absurd rfl h
      | cons c cs => exact Nat.succ_pos cs.length
  unfold osJoin
  split
  · exact h
  · split
    · exact h
    · split
      · intro hc
        have h2 := congrArg String.length hc
        rw [String.length_append] at h2
        have h0 : String.length "" = 0 := rfl
        rw [h0] at h2
        omega
      · intro hc
        have h2 := congrArg String.length hc
        rw [String.length_append, String.length_append] at h2
        have h0 : String.length "" = 0 := rfl
        rw [h0] at h2
        omega

/-! ### `hashfile` lemmas -/

theorem hashfile_dup (env : Env) (st : St) (filename : String) (f : File) (p : String)
    (hf : alookup st.fs.files filename = some f) (hr : f.readable = true)
    (hp : alookup st.hashes (env.sha1 f.bytes, f.bytes.length) = some p) (hne : p ≠ "") :
    hashfile env st filename = .ok (false, st) := by
  simp [hashfile, hf, hr, hp, hne]

theorem hashfile_fresh (env : Env) (st : St) (filename : String) (f : File)
    (hf : alookup st.fs.files filename = some f) (hr : f.readable = true)
    (hp : alookup st.hashes (env.sha1 f.bytes, f.bytes.length) = none) :
    hashfile env st filename =
      .ok (true, { st with
        hashes := alinsert (env.sha1 f.bytes, f.bytes.length) filename st.hashes }) := by
  simp [hashfile, hf, hr, hp]

theorem hashfile_ok (env : Env) (st : St) (filename : String) (b : Bool) (st' : St)
    (h : hashfile env st filename = .ok (b, st')) :
    st'.fs = st.fs ∧ st'.copycount = st.copycount ∧
      ((b = false ∧ st' = st) ∨
        (b = true ∧ ∃ f, alookup st.fs.files filename = some f ∧
          st'.hashes = alinsert (env.sha1 f.bytes, f.bytes.length) filename st.hashes ∧
          (alookup st.hashes (env.sha1 f.bytes, f.bytes.length) = none ∨
            alookup st.hashes (env.sha1 f.bytes, f.bytes.length) = some ""))) := by
  unfold hashfile at h
  split at h
  · exact absurd h (by simp)
  · next f hf =>
    split at h
    · exact absurd h (by simp)
    · split at h
      · next dup hdup =>
        split at h
        · next hemp =>
          obtain ⟨hb, hst⟩ := Prod.mk.injEq .. ▸ (Except.ok.inj h)
          subst hb hst
          refine ⟨rfl, rfl, Or.inr ⟨rfl, f, hf, rfl, Or.inr ?_⟩⟩
          rw [hdup, hemp]
        · obtain ⟨hb, hst⟩ := Prod.mk.injEq .. ▸ (Except.ok.inj h)
          subst hb hst
          exact ⟨rfl, rfl, Or.inl ⟨rfl, rfl⟩⟩
      · next hdup =>
        obtain ⟨hb, hst⟩ := Prod.mk.injEq .. ▸ (Except.ok.inj h)
        subst hb hst
        exact ⟨rfl, rfl, Or.inr ⟨rfl, f, hf, rfl, Or.inl hdup⟩⟩

/-! ### Collision-loop and `copyfile` lemmas -/

theorem copyLoop_some_free (fs : FS) (a lib fn : String) :
    ∀ (fuel : Nat) (cand : String) (i : Nat) (c : String),
      copyLoop fs a lib fn cand i fuel = .ok (some c) → fs.pathExists c = false := by
  intro fuel
  induction fuel with
  | zero =>
    intro cand i c h
    simp [copyLoop] at h
  | succ n ih =>
    intro cand i c h
    rw [copyLoop] at h
    split at h
    · split at h
      · exact absurd h (by simp)
      · exact absurd h (by simp)
      · split at h
        · exact absurd h (by simp)
        · exact ih _ _ _ h
    · next hex =>
      obtain hc := Option.some.inj (Except.ok.inj h)
      subst hc
      simp only [Bool.not_eq_true] at hex
      exact hex

theorem copyLoop_succ (fs : FS) (a lib fn cand : String) (i n : Nat) :
    copyLoop fs a lib fn cand i (n + 1) =
      if fs.pathExists cand then
        match comparefiles fs a cand with
        | .error e => .error e
        | .ok true => .ok none
        | .ok false =>
          match mkRenamed fn i with
          | none => .error .indexErr
          | some newname => copyLoop fs a lib fn (osJoin lib newname) (i + 1) n
      else .ok (some cand) := rfl

theorem copyfile_skip_identical (env : Env) (st : St) (a fn lib lp : String) (f g : File)
    (hdir : st.fs.pathExists lib = true)
    (ha : alookup st.fs.files a = some f)
    (hg : alookup st.fs.files (osJoin lib fn) = some g)
    (hb : g.bytes = f.bytes) (hra : f.readable = true) (hrg : g.readable = true) :
    copyfile env st a fn lib lp = .ok (.skippedIdentical, st) := by
  have hcmp : comparefiles st.fs a (osJoin lib fn) = .ok true := by
    unfold comparefiles
    rw [ha, hg]
    by_cases hsig : statSig f = statSig g
    · simp [hsig]
    · simp [hsig, hra, hrg, hb]
  have hval : validatedirectory env st.fs lib = (true, st.fs) := by
    unfold validatedirectory
    rw [hdir]
    simp
  unfold copyfile
  rw [hval]
  have hex : st.fs.pathExists (osJoin lib fn) = true := by
    unfold FS.pathExists
    rw [hg]
    simp
  unfold loopFuel
  simp only [copyLoop_succ, hex, hcmp]
  simp

theorem copyfile_ok (env : Env) (st : St) (a fn lib lp : String) (o : Outcome) (st' : St)
    (h : copyfile env st a fn lib lp = .ok (o, st')) :
    st'.hashes = st.hashes ∧
      st'.copycount = st.copycount + (if o = .moved then 1 else 0) ∧
      (o = .moved ∨ o = .moveError ∨ o = .dirFail ∨ o = .skippedIdentical) ∧
      (∀ p q, p ≠ a → alookup st.fs.files p = some q → alookup st'.fs.files p = some q) ∧
      (o ≠ .moved → st'.fs.files = st.fs.files) := by
  have hfiles : ∀ b fs1, validatedirectory env st.fs lib = (b, fs1) → fs1.files = st.fs.files := by
    intro b fs1 hv
    unfold validatedirectory at hv
    split at hv
    · obtain ⟨_, h2⟩ := Prod.mk.injEq .. ▸ hv
      rw [← h2]
    · split at hv
      · obtain ⟨_, h2⟩ := Prod.mk.injEq .. ▸ hv
        rw [← h2]
      · obtain ⟨_, h2⟩ := Prod.mk.injEq .. ▸ hv
        rw [← h2]
  unfold copyfile at h
  split at h
  · next fs1 hv =>
    obtain ⟨ho, hst⟩ := Prod.mk.injEq .. ▸ (Except.ok.inj h)
    subst ho hst
    refine ⟨rfl, by simp, by simp, ?_, fun _ => hfiles false fs1 hv⟩
    intro p q _ hq
    simp only
    rw [hfiles false fs1 hv]
    exact hq
  · next fs1 hv =>
    have hf1 : fs1.files = st.fs.files := hfiles true fs1 hv
    split at h
    · exact absurd h (by simp)
    · obtain ⟨ho, hst⟩ := Prod.mk.injEq .. ▸ (Except.ok.inj h)
      subst ho hst
      refine ⟨rfl, by simp, by simp, ?_, fun _ => hf1⟩
      intro p q _ hq
      simp only
      rw [hf1]
      exact hq
    · next finalpath hloop =>
      have hfree : fs1.pathExists finalpath = false :=
        copyLoop_some_free fs1 a lib fn (loopFuel fs1) (osJoin lib fn) 1 finalpath hloop
      have hfreeL : alookup fs1.files finalpath = none := by
        unfold FS.pathExists at hfree
        cases hl : alookup fs1.files finalpath with
        | none => rfl
        | some q =>
          rw [hl] at hfree
          simp at hfree
      split at h
      · obtain ⟨ho, hst⟩ := Prod.mk.injEq .. ▸ (Except.ok.inj h)
        subst ho hst
        refine ⟨rfl, by simp, by simp, ?_, fun _ => hf1⟩
        intro p q _ hq
        simp only
        rw [hf1]
        exact hq
      · next f hfa =>
        split at h
        · obtain ⟨ho, hst⟩ := Prod.mk.injEq .. ▸ (Except.ok.inj h)
          subst ho hst
          refine ⟨rfl, by simp, by simp, ?_, fun _ => hf1⟩
          intro p q _ hq
          simp only
          rw [hf1]
          exact hq
        · obtain ⟨ho, hst⟩ := Prod.mk.injEq .. ▸ (Except.ok.inj h)
          subst ho hst
          refine ⟨rfl, by simp, by simp, ?_, by simp⟩
          intro p q hpa hq
          simp only [alookup]
          have hpf : p ≠ finalpath := by
            intro hpf
            subst hpf
            rw [hf1] at hfreeL
            rw [hfreeL] at hq
            exact Option.noConfusion hq
          rw [if_neg hpf, alookup_alremove_ne _ _ _ hpa, hf1]
          exact hq

/-! ### `processItem` lemmas -/

theorem hashfile_readable (env : Env) (st : St) (filename : String) (f : File)
    (hf : alookup st.fs.files filename = some f) (hr : f.readable = true) :
    hashfile env st filename = .ok (false, st) ∨
      hashfile env st filename =
        .ok (true, { st with
          hashes := alinsert (env.sha1 f.bytes, f.bytes.length) filename st.hashes }) := by
  unfold hashfile
  rw [hf]
  simp only [hr, Bool.true_eq_false, if_false]
  cases hk : alookup st.hashes (env.sha1 f.bytes, f.bytes.length) with
  | none => exact Or.inr rfl
  | some dup => by_cases hd : dup = "" <;> simp [hd]

theorem processItem_master (env : Env) (directory library : String) (st : St) (item : String)
    (o : Outcome) (st' : St)
    (h : processItem env directory library st item = .ok (o, st')) :
    st'.copycount = st.copycount + (if o = .moved then 1 else 0) ∧
      (∀ p q, p ≠ osJoin directory item →
        alookup st.fs.files p = some q → alookup st'.fs.files p = some q) ∧
      (o ≠ .moved → st'.fs.files = st.fs.files) ∧
      (((o = .notFile ∨ o = .dupSkip) ∧ st' = st) ∨
        (insertedOutcome o = true ∧ ∃ f, alookup st.fs.files (osJoin directory item) = some f ∧
          st'.hashes = alinsert (env.sha1 f.bytes, f.bytes.length) (osJoin directory item) st.hashes ∧
          (alookup st.hashes (env.sha1 f.bytes, f.bytes.length) = none ∨
            alookup st.hashes (env.sha1 f.bytes, f.bytes.length) = some ""))) := by
  unfold processItem at h
  split at h
  · obtain ⟨ho, hst⟩ := Prod.mk.injEq .. ▸ (Except.ok.inj h)
    subst ho hst
    exact ⟨by simp, fun p q _ hq => hq, fun _ => rfl, Or.inl ⟨Or.inl rfl, rfl⟩⟩
  · next f0 hf0 =>
    split at h
    · exact absurd h (by simp)
    · next st1 heq =>
      obtain ⟨hfs, hcc, hcases⟩ := hashfile_ok env st _ false st1 heq
      rcases hcases with ⟨_, hst1⟩ | ⟨hb, _⟩
      · subst hst1
        obtain ⟨ho, hst⟩ := Prod.mk.injEq .. ▸ (Except.ok.inj h)
        subst ho hst
        exact ⟨by simp, fun p q _ hq => hq, fun _ => rfl, Or.inl ⟨Or.inr rfl, rfl⟩⟩
      · exact absurd hb (by simp)
    · next st1 heq =>
      obtain ⟨hfs, hcc, hcases⟩ := hashfile_ok env st _ true st1 heq
      rcases hcases with ⟨hb, _⟩ | ⟨_, f, hf, hhash, hdupo⟩
      · exact absurd hb (by simp)
      · have hinserted : insertedOutcome o = true ∧ st'.hashes = st1.hashes →
            insertedOutcome o = true ∧ ∃ f, alookup st.fs.files (osJoin directory item) = some f ∧
              st'.hashes = alinsert (env.sha1 f.bytes, f.bytes.length) (osJoin directory item) st.hashes ∧
              (alookup st.hashes (env.sha1 f.bytes, f.bytes.length) = none ∨
                alookup st.hashes (env.sha1 f.bytes, f.bytes.length) = some "") := by
          intro ⟨h1, h2⟩
          exact ⟨h1, f, hf, h2.trans hhash, hdupo⟩
        have hcopy : ∀ (y m d : String),
            copyfile env st1 (osJoin directory item) item
                (osJoin library (dateSubpath y m d)) (dateSubpath y m d) = .ok (o, st') →
            st'.copycount = st.copycount + (if o = .moved then 1 else 0) ∧
              (∀ p q, p ≠ osJoin directory item →
                alookup st.fs.files p = some q → alookup st'.fs.files p = some q) ∧
              (o ≠ .moved → st'.fs.files = st.fs.files) ∧
              (((o = .notFile ∨ o = .dupSkip) ∧ st' = st) ∨
                (insertedOutcome o = true ∧ ∃ f, alookup st.fs.files (osJoin directory item) = some f ∧
                  st'.hashes = alinsert (env.sha1 f.bytes, f.bytes.length) (osJoin directory item) st.hashes ∧
                  (alookup st.hashes (env.sha1 f.bytes, f.bytes.length) = none ∨
                    alookup st.hashes (env.sha1 f.bytes, f.bytes.length) = some ""))) := by
          intro y m d hcf
          obtain ⟨chash, ccc, cof, cframe, cne⟩ := copyfile_ok env st1 _ _ _ _ o st' hcf
          refine ⟨by rw [ccc, hcc], ?_, ?_, Or.inr (hinserted ⟨?_, chash⟩)⟩
          · intro p q hp hq
            apply cframe p q hp
            rw [hfs]
            exact hq
          · intro hom
            rw [cne hom, hfs]
          · rcases cof with rfl | rfl | rfl | rfl <;> rfl
        split at h
        · unfold copyvideo at h
          split at h
          · obtain ⟨ho, hst⟩ := Prod.mk.injEq .. ▸ (Except.ok.inj h)
            subst ho hst
            refine ⟨by simpa using hcc, ?_, fun _ => hfs ▸ rfl, Or.inr (hinserted ⟨rfl, rfl⟩)⟩
            intro p q _ hq
            rw [hfs]
            exact hq
          · next y m d _ => exact hcopy y m d h
        · split at h
          · exact absurd h (by simp)
          · next f2 hf2 =>
            split at h
            · exact absurd h (by simp)
            · split at h
              · obtain ⟨ho, hst⟩ := Prod.mk.injEq .. ▸ (Except.ok.inj h)
                subst ho hst
                refine ⟨by simpa using hcc, ?_, fun _ => hfs ▸ rfl, Or.inr (hinserted ⟨rfl, rfl⟩)⟩
                intro p q _ hq
                rw [hfs]
                exact hq
              · next tv htv =>
                split at h
                · obtain ⟨ho, hst⟩ := Prod.mk.injEq .. ▸ (Except.ok.inj h)
                  subst ho hst
                  refine ⟨by simpa using hcc, ?_, fun _ => hfs ▸ rfl, Or.inr (hinserted ⟨rfl, rfl⟩)⟩
                  intro p q _ hq
                  rw [hfs]
                  exact hq
                · next y m d _ =>
                  unfold copyimage at h
                  exact hcopy y m d h

theorem processItem_step (env : Env) (directory library : String) (st : St) (item : String)
    (o : Outcome) (st' : St)
    (hitem : item ≠ "")
    (hinv : ∀ k v, alookup st.hashes k = some v → v ≠ "")
    (h : processItem env directory library st item = .ok (o, st')) :
    st'.copycount = st.copycount + (if o = .moved then 1 else 0) ∧
      st'.hashes.length = st.hashes.length + (if insertedOutcome o then 1 else 0) ∧
      (∀ k v, alookup st'.hashes k = some v → v ≠ "") := by
  obtain ⟨hcc, _, _, hcases⟩ := processItem_master env directory library st item o st' h
  rcases hcases with ⟨ho, hst⟩ | ⟨hio, f, hf, hhash, hdup⟩
  · subst hst
    refine ⟨hcc, ?_, hinv⟩
    rcases ho with rfl | rfl <;> simp [insertedOutcome]
  · have hfresh : alookup st.hashes (env.sha1 f.bytes, f.bytes.length) = none := by
      rcases hdup with hn | hsome
      · exact hn
      · exact absurd (hinv _ _ hsome) (by simp)
    refine ⟨hcc, ?_, ?_⟩
    · rw [hhash, length_alinsert_of_none _ _ _ hfresh, hio]
      simp
    · intro k v hkv
      rw [hhash] at hkv
      rcases alookup_alinsert_cases _ _ _ _ _ hkv with rfl | hold
      · exact osJoin_ne_empty _ _ hitem
      · exact hinv _ _ hold

theorem importfolder_counters (env : Env) (directory library : String) :
    ∀ (items : List String) (st : St) (outs : List Outcome) (st' : St),
      (∀ it ∈ items, it ≠ "") →
      (∀ k v, alookup st.hashes k = some v → v ≠ "") →
      importfolder env directory library items st = .ok (outs, st') →
      st'.copycount = st.copycount + outs.countP (fun o => decide (o = .moved)) ∧
        st'.hashes.length = st.hashes.length + outs.countP insertedOutcome ∧
        (∀ k v, alookup st'.hashes k = some v → v ≠ "") := by
  intro items
  induction items with
  | nil =>
    intro st outs st' _ hinv h
    obtain ⟨ho, hst⟩ := Prod.mk.injEq .. ▸ (Except.ok.inj h)
    subst ho hst
    exact ⟨by simp, by simp, hinv⟩
  | cons item rest ih =>
    intro st outs st' hne hinv h
    unfold importfolder at h
    split at h
    · exact absurd h (by simp)
    · next o st1 heq =>
      split at h
      · exact absurd h (by simp)
      · next os2 st2 heq2 =>
        obtain ⟨ho, hst⟩ := Prod.mk.injEq .. ▸ (Except.ok.inj h)
        subst ho hst
        obtain ⟨s1, s2, s3⟩ :=
          processItem_step env directory library st item o st1
            (hne item (List.mem_cons_self item rest)) hinv heq
        obtain ⟨t1, t2, t3⟩ :=
          ih st1 os2 st2 (fun it hit => hne it (List.mem_cons_of_mem item hit)) s3 heq2
        refine ⟨?_, ?_, t3⟩
        · rw [List.countP_cons, t1, s1]
          by_cases hmv : o = Outcome.moved <;> simp [hmv] <;> omega
        · rw [List.countP_cons, t2, s2]
          by_cases hio : insertedOutcome o = true <;> simp [hio] <;> omega

/-- C7: at the end of every run, the reported unique-file count
(`len(hashes)`) exceeds its initial value by exactly the number of entries
that got past the duplicate check (each of which inserted one fresh identity
key), and the reported moved count (`copycount`) exceeds its initial value by
exactly the number of entries whose placement ended in a successful rename
(outcome `moved`); no other entry changes either counter. -/
theorem spec_c7_run_counters (env : Env) (library : String)
    (folders : List (String × List String)) (st : St) (outs : List Outcome) (st' : St)
    (hne : ∀ d items, (d, items) ∈ folders → ∀ it ∈ items, it ≠ "")
    (hinv : ∀ k v, alookup st.hashes k = some v → v ≠ "")
    (hrun : runMain env library folders st = .ok (outs, st')) :
    st'.copycount = st.copycount + outs.countP (fun o => decide (o = .moved)) ∧
      st'.hashes.length = st.hashes.length + outs.countP insertedOutcome := by
  induction folders generalizing st outs with
  | nil =>
    obtain ⟨ho, hst⟩ := Prod.mk.injEq .. ▸ (Except.ok.inj hrun)
    subst ho hst
    exact ⟨by simp, by simp⟩
  | cons folder rest ih =>
    obtain ⟨d, items⟩ := folder
    unfold runMain at hrun
    split at hrun
    · exact absurd hrun (by simp)
    · next os1 st1 heq =>
      split at hrun
      · exact absurd hrun (by simp)
      · next os2 st2 heq2 =>
        obtain ⟨ho, hst⟩ := Prod.mk.injEq .. ▸ (Except.ok.inj hrun)
        subst ho hst
        obtain ⟨s1, s2, s3⟩ :=
          importfolder_counters env d library items st os1 st1
            (hne d items (List.mem_cons_self _ rest)) hinv heq
        obtain ⟨t1, t2⟩ :=
          ih st1 os2 (fun d2 its2 hmem => hne d2 its2 (List.mem_cons_of_mem _ hmem)) s3 heq2
        constructor
        · rw [List.countP_append, t1, s1]
          omega
        · rw [List.countP_append, t2, s2]
          omega

/-! ### Identity-tracker claim theorems -/

/-- C1: a file whose identity key (digest, size) is already registered under
a (truthy) path is classified duplicate: the registry is not extended and the
whole pipeline state is returned unchanged — the file is not moved, deleted
or modified and no later stage runs (the entry terminates as `dupSkip`); a
file with a fresh key is classified unique and its key is inserted, mapped to
the file's path. -/
theorem spec_c1_identity_tracker (env : Env) (directory library item : String) (st : St)
    (f : File)
    (hf : alookup st.fs.files (osJoin directory item) = some f)
    (hr : f.readable = true) :
    (∀ p, alookup st.hashes (env.sha1 f.bytes, f.bytes.length) = some p → p ≠ "" →
      hashfile env st (osJoin directory item) = .ok (false, st) ∧
        processItem env directory library st item = .ok (.dupSkip, st)) ∧
    (alookup st.hashes (env.sha1 f.bytes, f.bytes.length) = none →
      hashfile env st (osJoin directory item) =
        .ok (true, { st with hashes := alinsert (env.sha1 f.bytes, f.bytes.length) (osJoin directory item) st.hashes })) := by
  constructor
  · intro p hp hpne
    have hdup := hashfile_dup env st _ f p hf hr hp hpne
    refine ⟨hdup, ?_⟩
    simp [processItem, hf, hdup]
  · intro hn
    exact hashfile_fresh env st _ f hf hr hn

/-- C10: the identity key of a readable, fresh file is inserted (and counted)
before date resolution is attempted: a file with an unresolvable date
terminates as `dateSkip` with its key nevertheless occupying the registry and
the registry one entry longer, its file untouched; every later byte-identical
file is then classified duplicate (`dupSkip`, state unchanged) and is never
moved, although the first copy was never placed either. -/
theorem spec_c10_registry_before_date (env : Env) (directory library itemA itemB : String)
    (st : St) (fA : File)
    (hfa : alookup st.fs.files (osJoin directory itemA) = some fA)
    (hra : fA.readable = true)
    (hfresh : alookup st.hashes (env.sha1 fA.bytes, fA.bytes.length) = none)
    (hnodate : itemDate env itemA fA = none)
    (hne : osJoin directory itemA ≠ "") :
    ∃ stA, processItem env directory library st itemA = .ok (.dateSkip, stA) ∧
      stA.fs = st.fs ∧ stA.copycount = st.copycount ∧
      stA.hashes.length = st.hashes.length + 1 ∧
      alookup stA.hashes (env.sha1 fA.bytes, fA.bytes.length) = some (osJoin directory itemA) ∧
      ∀ fB, alookup stA.fs.files (osJoin directory itemB) = some fB → fB.readable = true →
        fB.bytes = fA.bytes →
        processItem env directory library stA itemB = .ok (.dupSkip, stA) := by
  have hhf := hashfile_fresh env st _ fA hfa hra hfresh
  refine ⟨{ st with hashes := alinsert (env.sha1 fA.bytes, fA.bytes.length) (osJoin directory itemA) st.hashes }, ?_, rfl, rfl,
    length_alinsert_of_none _ _ _ hfresh, alookup_alinsert_self _ _ _, ?_⟩
  · unfold itemDate at hnodate
    by_cases hmp4 : endsWithL itemA ".mp4"
    · rw [if_pos hmp4] at hnodate
      simp [processItem, hfa, hhf, hmp4, copyvideo, hnodate]
    · simp only [Bool.not_eq_true] at hmp4
      rw [if_neg (by simp [hmp4])] at hnodate
      cases htag : env.exifTag fA.bytes with
      | none =>
        simp [processItem, hfa, hhf, hmp4, hra, htag]
      | some tv =>
        rw [htag] at hnodate
        simp only at hnodate
        simp [processItem, hfa, hhf, hmp4, hra, htag, hnodate]
  · intro fB hfb hrb hbytes
    have hdup : alookup
        (alinsert (env.sha1 fA.bytes, fA.bytes.length) (osJoin directory itemA) st.hashes)
        (env.sha1 fB.bytes, fB.bytes.length) = some (osJoin directory itemA) := by
      rw [hbytes]
      exact alookup_alinsert_self _ _ _
    have h1 := hashfile_dup env _ _ fB (osJoin directory itemA) hfb hrb hdup hne
    simp [processItem, hfb, h1]

/-! ### Idempotence lemmas -/

theorem processItem_alreadyPlaced (env : Env) (directory library : String) (st : St)
    (item : String)
    (hp : alreadyPlaced env st.fs directory library item = true) :
    ∃ o st', processItem env directory library st item = .ok (o, st') ∧ st'.fs = st.fs ∧
      st'.copycount = st.copycount := by
  unfold alreadyPlaced at hp
  cases hfa : alookup st.fs.files (osJoin directory item) with
  | none => exact ⟨.notFile, st, by simp [processItem, hfa], rfl, rfl⟩
  | some f =>
    rw [hfa] at hp
    simp only [Bool.and_eq_true] at hp
    obtain ⟨hread, hrest⟩ := hp
    rcases hashfile_readable env st _ f hfa hread with hdup | hfreshins
    · exact ⟨.dupSkip, st, by simp [processItem, hfa, hdup], rfl, rfl⟩
    · cases hdate : itemDate env item f with
      | none =>
        unfold itemDate at hdate
        by_cases hmp4 : endsWithL item ".mp4"
        · rw [if_pos hmp4] at hdate
          exact ⟨.dateSkip, { st with hashes := alinsert (env.sha1 f.bytes, f.bytes.length) (osJoin directory item) st.hashes },
            by simp [processItem, hfa, hfreshins, hmp4, copyvideo, hdate], rfl, rfl⟩
        · simp only [Bool.not_eq_true] at hmp4
          rw [if_neg (by simp [hmp4])] at hdate
          cases htag : env.exifTag f.bytes with
          | none =>
            exact ⟨.dateSkip, { st with hashes := alinsert (env.sha1 f.bytes, f.bytes.length) (osJoin directory item) st.hashes },
              by simp [processItem, hfa, hfreshins, hmp4, hread, htag], rfl, rfl⟩
          | some tv =>
            rw [htag] at hdate
            simp only at hdate
            exact ⟨.dateSkip, { st with hashes := alinsert (env.sha1 f.bytes, f.bytes.length) (osJoin directory item) st.hashes },
              by simp [processItem, hfa, hfreshins, hmp4, hread, htag, hdate], rfl, rfl⟩
      | some ymd =>
        obtain ⟨y, m, d⟩ := ymd
        rw [hdate] at hrest
        simp only [Bool.and_eq_true] at hrest
        obtain ⟨hdirex, hdest⟩ := hrest
        cases hg : alookup st.fs.files (osJoin (osJoin library (dateSubpath y m d)) item) with
        | none =>
          rw [hg] at hdest
          simp at hdest
        | some g =>
          rw [hg] at hdest
          simp only [Bool.and_eq_true, decide_eq_true_eq] at hdest
          obtain ⟨hgb, hgr⟩ := hdest
          have hskip := copyfile_skip_identical env
            { st with hashes := alinsert (env.sha1 f.bytes, f.bytes.length) (osJoin directory item) st.hashes }
            (osJoin directory item) item (osJoin library (dateSubpath y m d))
            (dateSubpath y m d) f g hdirex hfa hg hgb hread hgr
          unfold itemDate at hdate
          by_cases hmp4 : endsWithL item ".mp4"
          · rw [if_pos hmp4] at hdate
            exact ⟨.skippedIdentical, { st with hashes := alinsert (env.sha1 f.bytes, f.bytes.length) (osJoin directory item) st.hashes },
              by simp [processItem, hfa, hfreshins, hmp4, copyvideo, hdate, hskip], rfl, rfl⟩
          · simp only [Bool.not_eq_true] at hmp4
            rw [if_neg (by simp [hmp4])] at hdate
            cases htag : env.exifTag f.bytes with
            | none =>
              rw [htag] at hdate
              simp at hdate
            | some tv =>
              rw [htag] at hdate
              simp only at hdate
              exact ⟨.skippedIdentical, { st with hashes := alinsert (env.sha1 f.bytes, f.bytes.length) (osJoin directory item) st.hashes },
                by simp [processItem, hfa, hfreshins, hmp4, hread, htag, hdate, copyimage, hskip],
                rfl, rfl⟩

theorem importfolder_alreadyPlaced (env : Env) (directory library : String) :
    ∀ (items : List String) (st : St),
      (∀ item ∈ items, alreadyPlaced env st.fs directory library item = true) →
      ∃ outs st', importfolder env directory library items st = .ok (outs, st') ∧
        st'.fs = st.fs ∧ st'.copycount = st.copycount := by
  intro items
  induction items with
  | nil => exact fun st _ => ⟨[], st, rfl, rfl, rfl⟩
  | cons item rest ih =>
    intro st hp
    obtain ⟨o, st1, hproc, hfs1, hcc1⟩ :=
      processItem_alreadyPlaced env directory library st item
        (hp item (List.mem_cons_self item rest))
    obtain ⟨outs, st2, himp, hfs2, hcc2⟩ := ih st1 (by
      intro it hit
      rw [hfs1]
      exact hp it (List.mem_cons_of_mem item hit))
    refine ⟨o :: outs, st2, ?_, hfs2.trans hfs1, hcc2.trans hcc1⟩
    unfold importfolder
    rw [hproc]
    simp [himp]

/-- C4: when the candidate destination path is occupied by a file whose
bytes equal the source's bytes, `copyfile` performs no move and returns
`skippedIdentical` with the state (filesystem, registry, counter) exactly
unchanged — the source stays at its original location; consequently
re-running a whole folder whose entries are all already placed produces no
new moves and no change to the filesystem or the moved counter. -/
theorem spec_c4_skipped_identical_idempotent :
    (∀ (env : Env) (st : St) (absolutepath filename library librarypath : String) (f g : File),
      st.fs.pathExists library = true →
      alookup st.fs.files absolutepath = some f →
      alookup st.fs.files (osJoin library filename) = some g →
      g.bytes = f.bytes → f.readable = true → g.readable = true →
      copyfile env st absolutepath filename library librarypath = .ok (.skippedIdentical, st)) ∧
    (∀ (env : Env) (directory library : String) (items : List String) (st : St),
      (∀ item ∈ items, alreadyPlaced env st.fs directory library item = true) →
      ∃ outs st', importfolder env directory library items st = .ok (outs, st') ∧
        st'.fs = st.fs ∧ st'.copycount = st.copycount) := by
  constructor
  · intro env st a fn lib lp f g hdir ha hg hb hra hrg
    exact copyfile_skip_identical env st a fn lib lp f g hdir ha hg hb hra hrg
  · intro env directory library items st hp
    exact importfolder_alreadyPlaced env directory library items st hp

theorem importfolder_cons (env : Env) (directory library item : String) (rest : List String)
    (st : St) :
    importfolder env directory library (item :: rest) st =
      match processItem env directory library st item with
      | .error e => .error e
      | .ok (o, st1) =>
        match importfolder env directory library rest st1 with
        | .error e => .error e
        | .ok (os2, st2) => .ok (o :: os2, st2) := rfl

/-- C8 (amended): duplicate classification, unresolvable dates,
directory-creation failures and rename failures are non-fatal: the entry's
file is left untouched at its original path, the moved counter does not
change, and the run continues with the remaining entries; moreover no other
file (in particular no previously completed move) is ever removed by
processing an entry.  (A digest read failure, by contrast, aborts the whole
run — see the counterexample.) -/
theorem spec_c8_per_file_errors_nonfatal (env : Env) (directory library : String) (st : St)
    (item : String) (o : Outcome) (st1 : St)
    (h : processItem env directory library st item = .ok (o, st1)) :
    (o = .dupSkip ∨ o = .dateSkip ∨ o = .dirFail ∨ o = .moveError →
      alookup st1.fs.files (osJoin directory item) = alookup st.fs.files (osJoin directory item) ∧
        st1.copycount = st.copycount) ∧
    (∀ p q, p ≠ osJoin directory item →
      alookup st.fs.files p = some q → alookup st1.fs.files p = some q) ∧
    (∀ rest, importfolder env directory library (item :: rest) st =
      Except.map (fun r => (o :: r.1, r.2)) (importfolder env directory library rest st1)) := by
  obtain ⟨hcc, hframe, hfiles, _⟩ := processItem_master env directory library st item o st1 h
  refine ⟨?_, hframe, ?_⟩
  · intro ho
    have hnm : o ≠ .moved := by
      rcases ho with rfl | rfl | rfl | rfl <;> simp
    rw [hfiles hnm]
    refine ⟨rfl, ?_⟩
    rw [if_neg hnm] at hcc
    simpa using hcc
  · intro rest
    rw [importfolder_cons, h]
    cases himp : importfolder env directory library rest st1 <;> simp [himp, Except.map]

/-! ### Concrete claim theorems and witnesses -/

/-- C2: the destination directory is not built with a portable path join.
The run on `VID_20230401_001.mp4` places the file under the single
literal-backslash component `2023\04\01` (one directory whose name contains
backslashes on a POSIX platform, produced by the hardcoded
`'{0}\x7b..\x7d'.format` separators), not under the nested
`lib/2023/04/01/VID_20230401_001.mp4` that the portable join of §4.3 (here
`specPortableDest`) prescribes. -/
theorem spec_c2_hardcoded_separator :
    importfolder envW "src" "lib" ["VID_20230401_001.mp4"] stVid = .ok ([.moved], stVidFin) ∧
    osJoin (specPortableDest "lib" "2023" "04" "01") "VID_20230401_001.mp4" =
      "lib/2023/04/01/VID_20230401_001.mp4" ∧
    alookup stVidFin.fs.files "lib/2023/04/01/VID_20230401_001.mp4" = none ∧
    alookup stVidFin.fs.files "lib/2023\\04\\01/VID_20230401_001.mp4" =
      some ⟨[1, 2, 3], 5, true⟩ := by
  exact ⟨rfl, rfl, rfl, rfl⟩

/-- C3: the rename-suffix construction corrupts unusual names.  On a
collision with different content, a dot-less filename (`README`) raises an
uncaught `IndexError` (the whole run aborts instead of producing
`README-1`), and a multi-dot name `a.b.jpg` is renamed to `a-1.b`, dropping
`.jpg` — the base name is corrupted, unlike the claimed defensive splitting.
The simple single-dot case works as described. -/
theorem spec_c3_split_corrupts_names :
    copyfile envW stReadme "src/README" "README" "lib" "README" = .error .indexErr ∧
    mkRenamed "a.b.jpg" 1 = some "a-1.b" ∧
    mkRenamed "photo.jpg" 1 = some "photo-1.jpg" := by
  exact ⟨rfl, rfl, rfl⟩

/-- C5 (counterexample): the claimed shape `VID_<8-digit-date>_<numeric
suffix>.<ext>` does not characterise the code.  `VID_20230401_001.avi`
matches the shape (extension `avi`) but the regex demands a literal `.mp4`
and returns no date; conversely `VID_20230401_001.mp4.mp4` does not match
the shape (no dot-free extension) but the start-anchored-only regex accepts
it and extracts a date. -/
theorem spec_c5_cex_shape_mismatch :
    specVideoShape "VID_20230401_001.avi" = true ∧
    parseVideo "VID_20230401_001.avi" = none ∧
    specVideoShape "VID_20230401_001.mp4.mp4" = false ∧
    parseVideo "VID_20230401_001.mp4.mp4" = some ("2023", "04", "01") := by
  exact ⟨rfl, rfl, rfl, rfl⟩

/-- C6 (counterexample): the date tag is not required to match the exact
pattern `YYYY:MM:DD HH:MM:SS`: the separator is the regex class `\s`, so a
tab-separated string (not of the exact shape) still yields a date, as does a
string with one trailing newline (`$` tolerates it). -/
theorem spec_c6_cex_not_exact_pattern :
    exactDateShape "2023:13:05\t10:00:00" = false ∧
    parseDateTag "2023:13:05\t10:00:00" = some ("2023", "13", "05") ∧
    exactDateShape "2023:12:25 10:00:00\n" = false ∧
    parseDateTag "2023:12:25 10:00:00\n" = some ("2023", "12", "25") := by
  exact ⟨rfl, rfl, rfl, rfl⟩

/-- C8 (counterexample): a read failure during digest computation is fatal
to the whole run, not caught-and-skipped: with the unreadable `bad.jpg`
first, the run aborts with the uncaught read error and `good.mp4` is never
processed, although processing `good.mp4` alone succeeds. -/
theorem spec_c8_cex_read_error_aborts :
    importfolder envW "d" "lib" ["bad.jpg", "good.mp4"] stUnreadable =
      .error (.readErr "d/bad.jpg") ∧
    importfolder envW "d" "lib" ["good.mp4"] stUnreadable =
      .ok ([.dateSkip], stUnreadFin) := by
  exact ⟨rfl, rfl⟩

/-- C9 (counterexample): classification is by the `.mp4` suffix, not by the
video filename shape: `holiday.mp4` does not match the shape, yet it is
routed to the video resolver and skipped with no date — its valid
`EXIF DateTimeOriginal` tag (which the claim says would be consulted and
would resolve to 2023-01-01) is ignored and the file is not moved. -/
theorem spec_c9_cex_suffix_classification :
    specVideoShape "holiday.mp4" = false ∧
    endsWithL "holiday.mp4" ".mp4" = true ∧
    parseDateTag "2023:01:01 10:00:00" = some ("2023", "01", "01") ∧
    processItem (envTag "2023:01:01 10:00:00") "d" "lib" stHoliday "holiday.mp4" =
      .ok (.dateSkip,
        ⟨⟨[("d/holiday.mp4", ⟨[7, 7], 0, true⟩)], ["lib", "d"]⟩,
          [(([7, 7], 2), "d/holiday.mp4")], 0⟩) := by
  exact ⟨rfl, rfl, rfl, rfl⟩

/-- Witness for C1 at a concrete duplicate pair. -/
theorem spec_c1_witness :
    hashfile envW stDupPair "d/b.jpg" = .ok (false, stDupPair) ∧
      processItem envW "d" "lib" stDupPair "b.jpg" = .ok (.dupSkip, stDupPair) :=
  (spec_c1_identity_tracker envW "d" "lib" "b.jpg" stDupPair ⟨[5], 1, true⟩
    (by decide) (by decide)).1 "d/a.jpg" (by decide) (by decide)

/-- Witness for C4 at a concrete already-placed video. -/
theorem spec_c4_witness :
    copyfile envW stPlaced "d/VID_20230401_001.mp4" "VID_20230401_001.mp4"
        "lib/2023\\04\\01" "2023\\04\\01" = .ok (.skippedIdentical, stPlaced) ∧
    ∃ outs st', importfolder envW "d" "lib" ["VID_20230401_001.mp4"] stPlaced =
        .ok (outs, st') ∧ st'.fs = stPlaced.fs ∧ st'.copycount = stPlaced.copycount :=
  ⟨spec_c4_skipped_identical_idempotent.1 envW stPlaced "d/VID_20230401_001.mp4"
      "VID_20230401_001.mp4" "lib/2023\\04\\01" "2023\\04\\01" ⟨[1], 4, true⟩ ⟨[1], 9, true⟩
      (by decide) (by decide) (by decide) (by decide) (by decide) (by decide),
    spec_c4_skipped_identical_idempotent.2 envW "d" "lib" ["VID_20230401_001.mp4"] stPlaced
      (by decide)⟩

/-- Witness for C7 at a concrete two-entry run with one move and one
duplicate. -/
theorem spec_c7_witness :
    stTwoVidsFin.copycount = stTwoVids.copycount +
        List.countP (fun o => decide (o = Outcome.moved)) [Outcome.moved, Outcome.dupSkip] ∧
      stTwoVidsFin.hashes.length = stTwoVids.hashes.length +
        List.countP insertedOutcome [Outcome.moved, Outcome.dupSkip] :=
  spec_c7_run_counters envW "lib"
    [("d", ["VID_20230401_001.mp4", "VID_20230401_002.mp4"])] stTwoVids
    [Outcome.moved, Outcome.dupSkip] stTwoVidsFin
    (by
      intro d items hmem
      rw [List.mem_singleton, Prod.mk.injEq] at hmem
      obtain ⟨h1, h2⟩ := hmem
      subst h2
      decide)
    (by intro k v h; simp [alookup] at h) (by rfl)

/-- Witness for C8 at a concrete skipped entry. -/
theorem spec_c8_witness :
    alookup stUnreadFin.fs.files "d/good.mp4" = alookup stUnreadable.fs.files "d/good.mp4" ∧
      stUnreadFin.copycount = stUnreadable.copycount :=
  (spec_c8_per_file_errors_nonfatal envW "d" "lib" stUnreadable "good.mp4" .dateSkip
    stUnreadFin (by rfl)).1 (Or.inr (Or.inl rfl))

/-- Witness for C10 at a concrete pair of identical images lacking date
tags. -/
theorem spec_c10_witness :
    ∃ stA, processItem envW "d" "lib" stNoDate "first.jpg" = .ok (.dateSkip, stA) ∧
      stA.fs = stNoDate.fs ∧ stA.copycount = stNoDate.copycount ∧
      stA.hashes.length = stNoDate.hashes.length + 1 ∧
      alookup stA.hashes (envW.sha1 [3, 3], 2) = some (osJoin "d" "first.jpg") ∧
      ∀ fB, alookup stA.fs.files (osJoin "d" "second.jpg") = some fB → fB.readable = true →
        fB.bytes = [3, 3] →
        processItem envW "d" "lib" stA "second.jpg" = .ok (.dupSkip, stA) :=
  spec_c10_registry_before_date envW "d" "lib" "first.jpg" "second.jpg" stNoDate
    ⟨[3, 3], 0, true⟩ (by decide) (by decide) (by decide) (by decide) (by decide)

/-! ### Environment-congruence lemmas and the classification theorem -/

theorem hashfile_env_congr (env env' : Env) (h : env'.sha1 = env.sha1) :
    hashfile env' = hashfile env := by
  funext st p
  unfold hashfile
  rw [h]

theorem copyfile_env_congr (env env' : Env) (hmk : env'.mkdirFails = env.mkdirFails)
    (hrn : env'.renameFails = env.renameFails) : copyfile env' = copyfile env := by
  funext st a fn lib lp
  unfold copyfile validatedirectory
  simp only [hmk, hrn]

theorem copyvideo_env_congr (env env' : Env) (hmk : env'.mkdirFails = env.mkdirFails)
    (hrn : env'.renameFails = env.renameFails) : copyvideo env' = copyvideo env := by
  funext st a fn lib
  unfold copyvideo
  simp only [copyfile_env_congr env env' hmk hrn]

/-- C9 (amended): an entry is classified as video exactly when its filename
ends in `.mp4`.  A `.mp4` entry is resolved purely from its filename — its
processing result does not depend on the metadata collaborator at all; any
other entry is resolved from the externally supplied
`EXIF DateTimeOriginal` tag: a missing or unparsable tag skips it
(`dateSkip`), a parsed tag routes it through `copyimage` with the tag's
date. -/
theorem spec_c9_classification_by_suffix :
    (∀ (env env' : Env) (directory library : String) (st : St) (item : String),
      endsWithL item ".mp4" = true →
      env'.sha1 = env.sha1 → env'.mkdirFails = env.mkdirFails →
      env'.renameFails = env.renameFails →
      processItem env' directory library st item = processItem env directory library st item) ∧
    (∀ (env : Env) (directory library : String) (st : St) (item : String) (f : File),
      endsWithL item ".mp4" = false →
      alookup st.fs.files (osJoin directory item) = some f → f.readable = true →
      alookup st.hashes (env.sha1 f.bytes, f.bytes.length) = none →
      (env.exifTag f.bytes = none →
        processItem env directory library st item =
          .ok (.dateSkip, { st with hashes := alinsert (env.sha1 f.bytes, f.bytes.length) (osJoin directory item) st.hashes })) ∧
      (∀ tv, env.exifTag f.bytes = some tv → parseDateTag tv = none →
        processItem env directory library st item =
          .ok (.dateSkip, { st with hashes := alinsert (env.sha1 f.bytes, f.bytes.length) (osJoin directory item) st.hashes })) ∧
      (∀ tv y m d, env.exifTag f.bytes = some tv → parseDateTag tv = some (y, m, d) →
        processItem env directory library st item =
          copyimage env { st with hashes := alinsert (env.sha1 f.bytes, f.bytes.length) (osJoin directory item) st.hashes }
            (osJoin directory item) item library y m d)) := by
  constructor
  · intro env env' directory library st item hmp4 hsha hmk hrn
    simp only [processItem, hashfile_env_congr env env' hsha,
      copyvideo_env_congr env env' hmk hrn, hmp4, if_true]
  · intro env directory library st item f hmp4 hf hr hfresh
    have hhf := hashfile_fresh env st _ f hf hr hfresh
    refine ⟨?_, ?_, ?_⟩
    · intro htag
      simp [processItem, hf, hhf, hmp4, hr, htag]
    · intro tv htag hparse
      simp [processItem, hf, hhf, hmp4, hr, htag, hparse]
    · intro tv y m d htag hparse
      simp [processItem, hf, hhf, hmp4, hr, htag, hparse]

/-- Witness for C9: the video side never consults the metadata collaborator
(`envTag` differs from `envW` only there), and the image side of a tagged
non-`.mp4` file goes through `copyimage` with the tag's date. -/
theorem spec_c9_witness :
    processItem (envTag "2023:01:01 10:00:00") "d" "lib" stHoliday "holiday.mp4" =
      processItem envW "d" "lib" stHoliday "holiday.mp4" ∧
    processItem (envTag "2023:01:01 10:00:00") "d" "lib" stNoDate "first.jpg" =
      copyimage (envTag "2023:01:01 10:00:00")
        { stNoDate with hashes := alinsert ((envTag "2023:01:01 10:00:00").sha1 [3, 3], 2) (osJoin "d" "first.jpg") stNoDate.hashes }
        (osJoin "d" "first.jpg") "first.jpg" "lib" "2023" "01" "01" :=
  ⟨spec_c9_classification_by_suffix.1 envW (envTag "2023:01:01 10:00:00") "d" "lib" stHoliday
      "holiday.mp4" (by decide) rfl rfl rfl,
    (spec_c9_classification_by_suffix.2 (envTag "2023:01:01 10:00:00") "d" "lib" stNoDate
      "first.jpg" ⟨[3, 3], 0, true⟩ (by decide) (by decide) (by decide) (by decide)).2.2
      "2023:01:01 10:00:00" "2023" "01" "01" rfl (by decide)⟩

/-! ### Parser characterisation lemmas -/

theorem takeWhile_all_append (p : Char → Bool) (xs : List Char) (y : Char) (ys : List Char)
    (hx : ∀ a ∈ xs, p a = true) (hy : p y = false) :
    (xs ++ y :: ys).takeWhile p = xs ∧ (xs ++ y :: ys).dropWhile p = y :: ys := by
  induction xs with
  | nil => simp [List.takeWhile_cons, List.dropWhile_cons, hy]
  | cons a t ih =>
    have ha : p a = true := hx a (by simp)
    have iht := ih (fun b hb => hx b (by simp [hb]))
    simp [List.takeWhile_cons, List.dropWhile_cons, ha, iht.1, iht.2]

theorem parseVideo_some_shape (s : String) (y m d : String)
    (h : parseVideo s = some (y, m, d)) : vidPrefixShape s := by
  unfold parseVideo at h
  split at h
  · next y1 y2 y3 y4 m1 m2 d1 d2 rest heq =>
    split at h
    · next hdig =>
      split at h
      · next hcond =>
        simp only [Bool.and_eq_true, Bool.not_eq_true'] at hcond
        obtain ⟨hne, hpre⟩ := hcond
        obtain ⟨r, hr⟩ := List.isPrefixOf_iff_prefix.mp hpre
        refine ⟨[y1, y2, y3, y4, m1, m2, d1, d2], rest.takeWhile Char.isDigit, r, ?_, rfl,
          hdig, ?_, ?_⟩
        · rw [heq]
          have hrest : rest = rest.takeWhile Char.isDigit ++ (['.', 'm', 'p', '4'] ++ r) := by
            conv_lhs => rw [← List.takeWhile_append_dropWhile Char.isDigit rest]
            rw [hr]
          conv_lhs => rw [hrest]
          simp
        · intro hempty
          rw [hempty] at hne
          simp at hne
        · rw [List.all_eq_true]
          intro a ha
          exact List.mem_takeWhile_imp ha
      · exact absurd h (by simp)
    · exact absurd h (by simp)
  · exact absurd h (by simp)

theorem shape_parseVideo_some (s : String) (h : vidPrefixShape s) :
    ∃ y m d, parseVideo s = some (y, m, d) := by
  obtain ⟨ds, n, r, hs, hlen, hdig, hne, hnd⟩ := h
  rcases ds with _ | ⟨c1, _ | ⟨c2, _ | ⟨c3, _ | ⟨c4, _ | ⟨c5, _ | ⟨c6, _ | ⟨c7, _ |
    ⟨c8, _ | ⟨c9, t⟩⟩⟩⟩⟩⟩⟩⟩⟩ <;> simp at hlen
  have hdigits : ∀ a ∈ n, Char.isDigit a = true := List.all_eq_true.mp hnd
  have htake := takeWhile_all_append Char.isDigit n '.' ('m' :: 'p' :: '4' :: r)
    hdigits (by decide)
  have hnempty : n.isEmpty = false := by
    cases n with
    | nil => exact absurd rfl hne
    | cons a t => rfl
  have hpre : List.isPrefixOf ['.', 'm', 'p', '4'] ('.' :: 'm' :: 'p' :: '4' :: r) = true :=
    List.isPrefixOf_iff_prefix.mpr ⟨r, rfl⟩
  refine ⟨String.mk [c1, c2, c3, c4], String.mk [c5, c6], String.mk [c7, c8], ?_⟩
  unfold parseVideo
  rw [hs]
  simp only [List.cons_append, List.nil_append]
  simp only [List.append_assoc]
  simp [hdig, htake.1, htake.2, hnempty, hpre]

/-- C5 (amended): the video resolver returns a date exactly for filenames
that BEGIN with `VID_` + 8 digits + `_` + a non-empty digit run + the
literal `.mp4` (the regex is applied with `re.match`, anchored at the start
only, and the extension must literally be `mp4`); the date is the 8-digit
group split 4/2/2.  A `.mp4`-suffixed entry whose name fails this pattern is
skipped entirely: outcome `dateSkip`, no move, no counter change — only its
identity key was registered. -/
theorem spec_c5_video_date_pattern :
    (∀ s : String, (∃ y m d, parseVideo s = some (y, m, d)) ↔ vidPrefixShape s) ∧
    (∀ (env : Env) (directory library : String) (st : St) (item : String) (f : File),
      alookup st.fs.files (osJoin directory item) = some f → f.readable = true →
      alookup st.hashes (env.sha1 f.bytes, f.bytes.length) = none →
      endsWithL item ".mp4" = true → parseVideo item = none →
      processItem env directory library st item =
        .ok (.dateSkip, { st with hashes := alinsert (env.sha1 f.bytes, f.bytes.length) (osJoin directory item) st.hashes })) := by
  constructor
  · intro s
    constructor
    · intro ⟨y, m, d, hp⟩
      exact parseVideo_some_shape s y m d hp
    · exact shape_parseVideo_some s
  · intro env directory library st item f hf hr hfresh hmp4 hparse
    have hhf := hashfile_fresh env st _ f hf hr hfresh
    simp [processItem, hf, hhf, hmp4, copyvideo, hparse]

/-- Witness for C5: the canonical name parses (it has the required prefix),
and a concrete non-matching `.mp4` entry is skipped with only its key
registered. -/
theorem spec_c5_witness :
    (∃ y m d, parseVideo "VID_20230401_001.mp4" = some (y, m, d)) ∧
    processItem envW "d" "lib" stHoliday "holiday.mp4" =
      .ok (.dateSkip, { stHoliday with hashes := alinsert (envW.sha1 [7, 7], 2) (osJoin "d" "holiday.mp4") stHoliday.hashes }) :=
  ⟨(spec_c5_video_date_pattern.1 "VID_20230401_001.mp4").mpr
      ⟨['2', '0', '2', '3', '0', '4', '0', '1'], ['0', '0', '1'], [],
        by decide, rfl, rfl, by decide, rfl⟩,
    spec_c5_video_date_pattern.2 envW "d" "lib" stHoliday "holiday.mp4" ⟨[7, 7], 0, true⟩
      (by decide) (by decide) (by decide) (by decide) (by decide)⟩

theorem parseDateTag_some_shape (s : String) (y m d : String)
    (h : parseDateTag s = some (y, m, d)) : wsDateShape s := by
  unfold parseDateTag at h
  split at h
  · next y1 y2 y3 y4 m1 m2 d1 d2 w h1 h2 n1 n2 s1 s2 rest heq =>
    split at h
    · next hcond =>
      simp only [Bool.and_eq_true, decide_eq_true_eq] at hcond
      obtain ⟨⟨hdig, hws⟩, htail⟩ := hcond
      exact ⟨y1, y2, y3, y4, m1, m2, d1, d2, h1, h2, n1, n2, s1, s2, w, rest,
        by rw [heq]; simp, hdig, hws, htail⟩
    · exact absurd h (by simp)
  · exact absurd h (by simp)

theorem shape_parseDateTag_some (s : String) (h : wsDateShape s) :
    ∃ y m d, parseDateTag s = some (y, m, d) := by
  obtain ⟨y1, y2, y3, y4, m1, m2, d1, d2, h1, h2, n1, n2, s1, s2, w, tail,
    hs, hdig, hws, htail⟩ := h
  have ht : decide (tail = [] ∨ tail = ['\n']) = true := by
    rcases htail with rfl | rfl <;> simp
  refine ⟨String.mk [y1, y2, y3, y4], String.mk [m1, m2], String.mk [d1, d2], ?_⟩
  unfold parseDateTag
  rw [hs]
  simp only [List.cons_append, List.nil_append]
  simp [hdig, hws, ht]

/-- C6 (amended): the image resolver returns the date exactly when the
supplied tag string is digits in the frame `YYYY:MM:DD?HH:MM:SS` where `?`
is any single whitespace character (the regex class `\s`, not only a literal
space) and at most one trailing newline follows (tolerated by `$`); no
calendar validation happens, so month `13` is accepted as-is; with a missing
or non-matching tag the entry is skipped: outcome `dateSkip`, no move, no
counter change — only its identity key was registered. -/
theorem spec_c6_image_date_shape :
    (∀ s : String, (∃ y m d, parseDateTag s = some (y, m, d)) ↔ wsDateShape s) ∧
    parseDateTag "2023:13:05 10:00:00" = some ("2023", "13", "05") ∧
    (∀ (env : Env) (directory library : String) (st : St) (item : String) (f : File),
      alookup st.fs.files (osJoin directory item) = some f → f.readable = true →
      alookup st.hashes (env.sha1 f.bytes, f.bytes.length) = none →
      endsWithL item ".mp4" = false →
      (env.exifTag f.bytes = none ∨
        ∃ tv, env.exifTag f.bytes = some tv ∧ parseDateTag tv = none) →
      processItem env directory library st item =
        .ok (.dateSkip, { st with hashes := alinsert (env.sha1 f.bytes, f.bytes.length) (osJoin directory item) st.hashes })) := by
  refine ⟨?_, rfl, ?_⟩
  · intro s
    constructor
    · intro ⟨y, m, d, hp⟩
      exact parseDateTag_some_shape s y m d hp
    · exact shape_parseDateTag_some s
  · intro env directory library st item f hf hr hfresh hmp4 htag
    have hhf := hashfile_fresh env st _ f hf hr hfresh
    rcases htag with hnone | ⟨tv, hsome, hparse⟩
    · simp [processItem, hf, hhf, hmp4, hr, hnone]
    · simp [processItem, hf, hhf, hmp4, hr, hsome, hparse]

/-- Witness for C6: a concrete well-formed tag parses (via the shape), and a
concrete tag-less image is skipped with only its key registered. -/
theorem spec_c6_witness :
    (∃ y m d, parseDateTag "2022:12:25 10:00:00" = some (y, m, d)) ∧
    processItem envW "d" "lib" stNoDate "first.jpg" =
      .ok (.dateSkip, { stNoDate with hashes := alinsert (envW.sha1 [3, 3], 2) (osJoin "d" "first.jpg") stNoDate.hashes }) :=
  ⟨(spec_c6_image_date_shape.1 "2022:12:25 10:00:00").mpr
      ⟨'2', '0', '2', '2', '1', '2', '2', '5', '1', '0', '0', '0', '0', '0', ' ', [],
        by decide, rfl, rfl, Or.inl rfl⟩,
    spec_c6_image_date_shape.2.2 envW "d" "lib" stNoDate "first.jpg" ⟨[3, 3], 0, true⟩
      (by decide) (by decide) (by decide) (by decide) (Or.inl rfl)⟩
